import Mathlib

/-!
Verification of the BEE2.4 pre-build map transformation engine against its
natural-language specification.

The development shallowly embeds, in Lean 4:
* the error-display page's resize handler and heartbeat visibility logic
  (`src/error_display/static/script.js`),
* the application launcher's argument parsing and component dispatch
  (`src/src/BEE2_launch.pyw`),
* and models, written from the specification's own words, of the compiler
  components whose sources are not part of this tree: the Conditions Engine,
  the deterministic random streams, the Connections `compact()` pass, the
  Tiling Grid, and the Template System.
-/

namespace ErrorDisplay

/-- Tile size constant from `script.js`: `const TILE_SIZE = 64`. -/
def TILE_SIZE : Int := 64

/-- Padding constant from `script.js`: `const PADDING = 96`. -/
def PADDING : Int := 96

/-- The height computation from the `update()` resize handler in
`src/error_display/static/script.js` (lines 265-282):

```
const screen_height = document.documentElement.clientHeight - PADDING;
let height = Math.floor(screen_height / TILE_SIZE);
if (height > 8) { height = 8; }
height *= TILE_SIZE;
container.style.height = `${height}px`;
```

`clientHeight` is an integer; `Math.floor` of an integer quotient is floor
division, `Int.fdiv` here. -/
def renderHeight (clientHeight : Int) : Int :=
  let screen_height := clientHeight - PADDING
  let height := Int.fdiv screen_height TILE_SIZE
  let height := if height > 8 then 8 else height
  height * TILE_SIZE

/-- Heartbeat actions the page can emit, from `script.js` lines 10-31. -/
inductive HBAction where
  | beacon        -- `navigator.sendBeacon("/heartbeat")`
  | setTimer      -- `heartbeatID = setInterval(fireHeartbeat, FREQ)`
  | clearTimer    -- `clearInterval(heartbeatID); heartbeatID = null`
  deriving DecidableEq, Repr

/-- State of the heartbeat logic: whether the document is visible and whether
`heartbeatID` is non-null (the repeating timer is active). -/
structure HBState where
  visible : Bool
  timerActive : Bool
  deriving DecidableEq, Repr

/-- Initial state on page load (`script.js` line 15): the page is visible and
`heartbeatID = setInterval(...)` has been assigned, so the timer is active. -/
def hbInit : HBState := { visible := true, timerActive := true }

/-- One `visibilitychange` event; `v` is `document.visibilityState === 'visible'`
at the time the listener runs (`script.js` lines 19-31).  Returns the new state
and the list of actions the handler performs, in order:

```
if (document.visibilityState === 'visible') {
    fireHeartbeat();
    if (heartbeatID === null) { heartbeatID = setInterval(fireHeartbeat, FREQ); }
} else {
    if (heartbeatID !== null) { clearInterval(heartbeatID); heartbeatID = null; }
}
```
-/
def hbStep (s : HBState) (v : Bool) : HBState × List HBAction :=
  if v then
    ({ visible := true, timerActive := true },
      HBAction.beacon :: (if s.timerActive then [] else [HBAction.setTimer]))
  else
    ({ visible := false, timerActive := false },
      if s.timerActive then [HBAction.clearTimer] else [])

/-- Run a sequence of `visibilitychange` events from a starting state. -/
def hbRun (s : HBState) : List Bool → HBState
  | [] => s
  | v :: vs => hbRun (hbStep s v).1 vs

end ErrorDisplay

namespace Launcher

/-- A Python string, represented by its character sequence. -/
abbrev PyStr := List Char

/-- Python's `str.lower()`, restricted to the per-character mapping that is all
the launcher's ASCII component names need. -/
def pyLower (s : PyStr) : PyStr := s.map Char.toLower

/-- Python's `str.startswith(pre)`. -/
def pyStartswith (s pre : PyStr) : Bool := s.take pre.length = pre

/-- Argument parsing from `src/src/BEE2_launch.pyw` lines 43-48:

```
if len(sys.argv) > 1:
    log_name = app_name = sys.argv[1].lower()
    if app_name not in ('backup', 'compilepane'):
        log_name = 'bee2'
else:
    log_name = app_name = 'bee2'
```

`argv` is the full `sys.argv`, program name first. -/
def appName (argv : List PyStr) : PyStr :=
  match argv with
  | _ :: arg :: _ => pyLower arg
  | _ => "bee2".data

/-- The log file stem chosen by the same lines of `BEE2_launch.pyw`. -/
def logName (argv : List PyStr) : PyStr :=
  let a := appName argv
  if a = "backup".data ∨ a = "compilepane".data then a else "bee2".data

/-- Outcome of the `__main__` dispatch in `BEE2_launch.pyw` lines 86-107. -/
inductive Dispatch where
  | appInGameExit          -- the app-inside-game-folder check fired; `sys.exit()`
  | bee2                   -- `BEE2.start_main()`
  | backup                 -- `BEE2.start_main(backup.init_application)`
  | compilePane            -- `CompilerPane.init_application()`
  | test (modName : PyStr)    -- `importlib.import_module('app.demo.' + sys.argv[1][5:])`
  | invalid                -- `raise ValueError(f'Invalid component name "{app_name}"!')`
  deriving DecidableEq, Repr

/-- Component dispatch from `BEE2_launch.pyw` lines 86-107.  `appInGame` is the
result of the `steam_appid.txt` / folder-name check on line 86; when it holds
the launcher exits before dispatching.  Note the `test_` branch slices the
original `sys.argv[1]`, not the lowercased name.

```
if utils.install_path('../steam_appid.txt').exists() and ...:
    gameMan.app_in_game_error(); sys.exit()
elif app_name == 'bee2': ...
elif app_name == 'backup': ...
elif app_name == 'compilepane': ...
elif app_name.startswith('test_'): ...
else: raise ValueError(...)
```
-/
def dispatch (appInGame : Bool) (argv : List PyStr) : Dispatch :=
  if appInGame then .appInGameExit
  else
    let a := appName argv
    if a = "bee2".data then .bee2
    else if a = "backup".data then .backup
    else if a = "compilepane".data then .compilePane
    else if pyStartswith a "test_".data then
      .test ((argv.getD 1 []).drop 5)
    else .invalid

end Launcher

namespace Conditions

/-- Modelled from the spec: the Conditions Engine's sources (`precomp.conditions`)
are not in this tree.  Combinator for a Condition's Flag list: `AND`/`OR`,
default `AND`. -/
inductive Combinator where
  | and
  | or
  deriving DecidableEq, Repr

/-- Modelled from the spec: an Instance is a placed copy of a reusable sub-map
with a file path, a stable identity (name) and fixup variables
(string to string).  Position/orientation are irrelevant to the claims here. -/
structure Instance where
  name : String
  path : String
  fixup : List (String × String)
  deriving DecidableEq, Repr

/-- Modelled from the spec: Flags are polymorphic over a closed set of named
variants, each with a pure evaluation function against an Instance's context. -/
inductive Flag where
  | instFile (path : String)            -- the Instance uses this file
  | fixupValue (key value : String)     -- a fixup variable has this value
  deriving DecidableEq, Repr

/-- Modelled from the spec: pure Flag evaluation against one Instance. -/
def testFlag (inst : Instance) : Flag → Bool
  | .instFile p => inst.path == p
  | .fixupValue k v => ((inst.fixup.lookup k).getD "") == v

/-- Modelled from the spec: a Condition is an ordered Flag list with a
combinator and an ordered Result list.  Results are identities into the
one-shot registry (design-notes `RuleRegistry`); `cid` is the Condition's own
identity, fixed for the run. -/
structure Condition where
  cid : Nat
  flags : List Flag
  op : Combinator
  results : List Nat
  deriving DecidableEq, Repr

/-- Modelled from the spec: Flag evaluation for a whole Condition.  `AND`
requires every Flag true, `OR` at least one; an empty Flag list is vacuously
true regardless of the combinator. -/
def testCond (c : Condition) (i : Instance) : Bool :=
  match c.flags with
  | [] => true
  | fs =>
    match c.op with
    | .and => fs.all (testFlag i)
    | .or => fs.any (testFlag i)

/-- Modelled from the spec: remove the given (one-shot, already fired) result
identities from one Condition's Result list.  The Result list only ever
shrinks. -/
def stripResults (fired : List Nat) (c : Condition) : Condition :=
  { c with results := c.results.filter (fun r => decide (r ∉ fired)) }

/-- Modelled from the spec: a Condition whose Result list becomes empty is
exhausted and is pruned from the remaining pool. -/
def pruneExhausted (pool : List Condition) : List Condition :=
  pool.filter (fun c => decide (c.results ≠ []))

/-- Modelled from the spec: after a Condition's Results run, fired one-shot
results are removed from every Condition that held them, and Conditions
emptied by this are pruned. -/
def globalRemove (fired : List Nat) (pool : List Condition) : List Condition :=
  pruneExhausted (pool.map (stripResults fired))

/-- Modelled from the spec: evaluate every still-live Condition against one
Instance, in declaration order.  `done` holds Conditions already evaluated for
this Instance, `todo` those not yet evaluated; `oneShot` is the registry
predicate marking one-shot results.  When a Condition's Flags pass, its
Results fire (appending their identities to the trace), the fired one-shot
results are removed globally — from the already-evaluated Conditions, the
firing Condition itself and the Conditions still to be evaluated — and
exhausted Conditions are pruned.  `fuel` bounds the recursion; it is always
at least `todo.length` at call sites, making the `0` case unreachable. -/
def runInstAux (oneShot : Nat → Bool) (i : Instance) :
    Nat → List Condition → List Condition → List Condition × List Nat
  | 0, done, _ => (done, [])
  | _ + 1, done, [] => (done, [])
  | fuel + 1, done, c :: todo =>
    if testCond c i then
      let firedOS := c.results.filter oneShot
      let out := runInstAux oneShot i fuel
        (globalRemove firedOS (done ++ [c])) (globalRemove firedOS todo)
      (out.1, c.results ++ out.2)
    else
      runInstAux oneShot i fuel (done ++ [c]) todo

/-- Modelled from the spec: one full scan of the Condition pool for one
Instance. -/
def runInstance (oneShot : Nat → Bool) (pool : List Condition) (i : Instance) :
    List Condition × List Nat :=
  runInstAux oneShot i pool.length [] pool

/-- Modelled from the spec: `run(instances, conditions)` visits every Instance
once, in a single forward pass, threading the shrinking Condition pool, and
returns the final pool and the full trace of fired result identities. -/
def runConditions (oneShot : Nat → Bool) :
    List Instance → List Condition → List Condition × List Nat
  | [], pool => (pool, [])
  | i :: is, pool =>
    let out := runInstance oneShot pool i
    let rest := runConditions oneShot is out.1
    (rest.1, out.2 ++ rest.2)

/-- A result identity appears in no Condition of the pool. -/
def NotHeld (r : Nat) (pool : List Condition) : Prop :=
  ∀ c ∈ pool, r ∉ c.results

end Conditions

namespace Rand

/-- Modelled from the spec: the deterministic random streams module
(`precomp.rand`) is not in this tree.  The stable, order- and
platform-independent data an entity contributes to seeding: its declared name
(character codes) and its world position. -/
structure SeedEntity where
  name : List Nat
  pos : Int × Int × Int
  deriving DecidableEq, Repr

/-- Working modulus for the seed arithmetic: values live in 32 bits. -/
def W32 : Nat := 2 ^ 32

/-- Mix one value into a running hash (multiply-add, reduced mod 2^32). -/
def hashStep (h v : Nat) : Nat := (h * 31 + v) % W32

/-- A position coordinate reduced to a stable non-negative representative. -/
def coordVal (x : Int) : Nat := (x % (2 ^ 32 : Int)).toNat

/-- Modelled from the spec: an entity's seed hash is built only from its own
declared name and world position — never from iteration order or memory
addresses. -/
def entHash (e : SeedEntity) : Nat :=
  (e.name.foldl hashStep 7
    + coordVal e.pos.1 + coordVal e.pos.2.1 + coordVal e.pos.2.2) % W32

/-- Modelled from the spec: the map-level seed combines every entity's stable
hash with an order-independent operation (a sum mod 2^32), so reordering
entities in the input file cannot change it. -/
def mapSeed (m : List SeedEntity) : Nat := (m.map entHash).sum % W32

/-- One step of a 32-bit linear congruential generator. -/
def lcgNext (s : Nat) : Nat := (1664525 * s + 1013904223) % W32

/-- The first `n` outputs of the generator from state `s`. -/
def lcgStream (s : Nat) : Nat → List Nat
  | 0 => []
  | n + 1 => lcgNext s :: lcgStream (lcgNext s) n

/-- Modelled from the spec: `stream_for(key)` — the reproducible stream for a
caller-supplied key over the given map content; a pure function of the key
bytes and the stable map seed only (first `n` outputs shown). -/
def stream_for (m : List SeedEntity) (key : List Nat) (n : Nat) : List Nat :=
  lcgStream (key.foldl hashStep (mapSeed m)) n

end Rand

namespace Tiling

/-- Modelled from the spec: the Tiling Grid sources (`precomp.tiling`) are not
in this tree.  A sub-tile's type: white/black/void/special. -/
inductive TileType where
  | white
  | black
  | void
  | special
  deriving DecidableEq, Repr

/-- Modelled from the spec: a sub-tile's state — tile type plus material
variant index. -/
structure TileState where
  ty : TileType
  material : Nat
  deriving DecidableEq, Repr

/-- Modelled from the spec: a Tiling Grid address — a 128-unit grid cell, one
of 6 axis-aligned orientations, and a 4×4 sub-tile coordinate. -/
structure TileAddr where
  cell : Int × Int × Int
  orient : Fin 6
  subU : Fin 4
  subV : Fin 4
  deriving DecidableEq, Repr

/-- Modelled from the spec: the grid's topology (the set of cells parsed from
source brushwork) is fixed once built; only sub-tile contents mutate.  `data`
is the direct-addressed tile store. -/
structure TileGrid where
  cells : List (Int × Int × Int)
  data : TileAddr → TileState

/-- An address is valid when its cell belongs to the parsed topology. -/
def TileGrid.validAddr (g : TileGrid) (a : TileAddr) : Prop := a.cell ∈ g.cells

instance (g : TileGrid) (a : TileAddr) : Decidable (g.validAddr a) :=
  inferInstanceAs (Decidable (a.cell ∈ g.cells))

/-- Modelled from the spec: `get(cell, orientation, subtile)` — O(1) direct
addressing. -/
def TileGrid.get (g : TileGrid) (a : TileAddr) : TileState := g.data a

/-- Modelled from the spec: `set(cell, orientation, subtile, state)` — O(1)
direct addressing; writes only touch the addressed sub-tile and never change
the topology. -/
def TileGrid.set (g : TileGrid) (a : TileAddr) (s : TileState) : TileGrid :=
  if a.cell ∈ g.cells then
    ⟨g.cells, fun a' => if a' = a then s else g.data a'⟩
  else g

end Tiling

namespace Template

/-- An entity targetname, as its character-code sequence. -/
abbrev TName := List Nat

/-- Modelled from the spec: the Template System sources
(`precomp.template_brush`) are not in this tree.  Only the entity names
matter to the identity-collision claim; geometry is carried by the brushes,
omitted here. -/
structure TemplEntity where
  targetname : TName
  deriving DecidableEq, Repr

/-- The character code of the separator `_` between a base name and its
appended suffix. -/
def SEP : Nat := 95

/-- Little-endian decimal digits of `n`, with fuel for structural recursion
(`digitsOf` below always supplies enough). -/
def digitsAux : Nat → Nat → List Nat
  | 0, _ => []
  | fuel + 1, n => if n = 0 then [] else n % 10 :: digitsAux fuel (n / 10)

/-- Little-endian decimal digits of `n` (empty for 0). -/
def digitsOf (n : Nat) : List Nat := digitsAux n n

/-- Modelled from the spec: rename an entity targetname by appending the
per-call-unique suffix derived from the owner Instance's identity token. -/
def renameTarget (owner : Nat) (t : TName) : TName :=
  t ++ SEP :: digitsOf owner

/-- Modelled from the spec: instancing a template copies every entity and
renames its targetname with the owner's unique suffix; this returns the
resulting entity names (the placement transform moves geometry only and
cannot affect names). -/
def instanceTemplate (tpl : List TemplEntity) (owner : Nat) : List TName :=
  tpl.map (fun e => renameTarget owner e.targetname)

/-- Decode little-endian decimal digits back into a number. -/
def undigits : List Nat → Nat
  | [] => 0
  | d :: ds => d + 10 * undigits ds

end Template

namespace Connections

/-- Modelled from the spec: the Connections Graph sources
(`precomp.connections`) are not in this tree.  One output statement: the
target item identity and the named input it drives. -/
structure Output where
  target : Nat
  inp : List Nat
  deriving DecidableEq, Repr

/-- Modelled from the spec: an emitted logic entity with its identity and its
list of simultaneous output statements. -/
structure CEntity where
  name : Nat
  outputs : List Output
  deriving DecidableEq, Repr

/-- Split a list of outputs into consecutive chunks of at most `c`, with fuel
for structural recursion (`chunksOf` always supplies enough). -/
def chunksAux (c : Nat) : Nat → List Output → List (List Output)
  | 0, _ => []
  | _ + 1, [] => []
  | fuel + 1, x :: xs => (x :: xs.take (c - 1)) :: chunksAux c fuel (xs.drop (c - 1))

/-- Split a list of outputs into consecutive chunks of at most `c`. -/
def chunksOf (c : Nat) (xs : List Output) : List (List Output) :=
  chunksAux c xs.length xs

/-- Identity of the `k`-th relay allocated under source entity `src`. -/
def relayName (src k : Nat) : Nat := src * 1000 + k + 1

/-- The single output statement on a source that fires relay `r`. -/
def relayTrigger (r : Nat) : Output := ⟨r, [84, 114, 105, 103, 103, 101, 114]⟩

/-- Modelled from the spec: relays allocated breadth-first from the source
node, one per chunk of the source's original outputs. -/
def mkRelays (src : Nat) (chunks : List (List Output)) : List CEntity :=
  ((List.range chunks.length).zip chunks).map (fun p => ⟨relayName src p.1, p.2⟩)

/-- Modelled from the spec: `compact()` on one entity.  An entity already
within the hard per-entity output limit is passed through untouched (a no-op);
otherwise its outputs are split into chunks of at most the limit, each chunk
moved onto a relay entity, and the source — now firing one output per relay —
is compacted again.  The effective limit is `max 2 limit`: a relay scheme
needs at least two outputs per entity to make progress.  `fuel` bounds the
recursion; `compactEntity` supplies `e.outputs.length`, which the
relay-count bound proves sufficient. -/
def compactAux (limit : Nat) : Nat → CEntity → List CEntity
  | 0, e => [e]
  | fuel + 1, e =>
    if e.outputs.length ≤ max 2 limit then [e]
    else
      let relays := mkRelays e.name (chunksOf (max 2 limit) e.outputs)
      compactAux limit fuel ⟨e.name, relays.map (fun r => relayTrigger r.name)⟩
        ++ relays

/-- Modelled from the spec: `compact()` on one entity. -/
def compactEntity (limit : Nat) (e : CEntity) : List CEntity :=
  compactAux limit e.outputs.length e

/-- Modelled from the spec: the closing `compact() -> entities` step over the
whole graph. -/
def compact (limit : Nat) (g : List CEntity) : List CEntity :=
  (g.map (compactEntity limit)).flatten

end Connections

/-- Claim C8: in the error-display page's resize handler `update()`, for every
viewport size the render container's computed pixel height equals
`min(floor((clientHeight - 96) / 64), 8) * 64`; in particular it is always an
exact multiple of 64 and never exceeds 512 pixels. -/
theorem c8_render_height_formula (clientHeight : Int) :
    ErrorDisplay.renderHeight clientHeight
      = min (Int.fdiv (clientHeight - 96) 64) 8 * 64
    ∧ (64 : Int) ∣ ErrorDisplay.renderHeight clientHeight
    ∧ ErrorDisplay.renderHeight clientHeight ≤ 512 := by
  unfold ErrorDisplay.renderHeight ErrorDisplay.TILE_SIZE ErrorDisplay.PADDING
  set q := Int.fdiv (clientHeight - 96) 64 with hq
  by_cases h : q > 8
  · simp only [if_pos h]
    refine ⟨?_, ⟨8, by ring⟩, by norm_num⟩
    rw [min_eq_right (le_of_lt h)]
  · simp only [if_neg h]
    push_neg at h
    refine ⟨?_, ⟨q, by ring⟩, ?_⟩
    · rw [min_eq_left h]
    · nlinarith [h]

/-- Helper: after any `visibilitychange` event with new visibility `v`, the
heartbeat state is exactly `⟨v, v⟩`. -/
theorem hbStep_fst (s : ErrorDisplay.HBState) (v : Bool) :
    (ErrorDisplay.hbStep s v).1 = ⟨v, v⟩ := by
  cases v <;> simp [ErrorDisplay.hbStep]

/-- Helper: the heartbeat invariant `timerActive = visible` holds after any
event sequence from a state satisfying it. -/
theorem hbRun_inv (events : List Bool) :
    ∀ s : ErrorDisplay.HBState, s.timerActive = s.visible →
      (ErrorDisplay.hbRun s events).timerActive
        = (ErrorDisplay.hbRun s events).visible := by
  induction events with
  | nil => intro s h; simpa [ErrorDisplay.hbRun] using h
  | cons v vs ih =>
      intro s _
      show (ErrorDisplay.hbRun (ErrorDisplay.hbStep s v).1 vs).timerActive = _
      exact ih _ (by rw [hbStep_fst])

/-- Claim C9: in the error-display page, after any sequence of
`visibilitychange` events starting from the visible state, the repeating
heartbeat timer is active (`heartbeatID` is non-null) if and only if the
document is visible; and on each hidden-to-visible transition the handler
sends one heartbeat immediately before restarting the timer. -/
theorem c9_heartbeat_visibility (events : List Bool) :
    ((ErrorDisplay.hbRun ErrorDisplay.hbInit events).timerActive
      = (ErrorDisplay.hbRun ErrorDisplay.hbInit events).visible)
    ∧ ((ErrorDisplay.hbRun ErrorDisplay.hbInit events).visible = false →
        (ErrorDisplay.hbStep (ErrorDisplay.hbRun ErrorDisplay.hbInit events) true).2
          = [ErrorDisplay.HBAction.beacon, ErrorDisplay.HBAction.setTimer]) := by
  have hinv := hbRun_inv events ErrorDisplay.hbInit rfl
  refine ⟨hinv, fun hvis => ?_⟩
  have hact : (ErrorDisplay.hbRun ErrorDisplay.hbInit events).timerActive = false := by
    rw [hinv, hvis]
  simp [ErrorDisplay.hbStep, hact]

/-- Witness for C9: after the page is hidden once, the timer is off exactly as
the page is invisible, and the next return to visibility emits a beacon then
restarts the interval timer. -/
theorem c9_heartbeat_visibility_witness :
    (ErrorDisplay.hbStep (ErrorDisplay.hbRun ErrorDisplay.hbInit [false]) true).2
      = [ErrorDisplay.HBAction.beacon, ErrorDisplay.HBAction.setTimer] :=
  (c9_heartbeat_visibility [false]).2 (by decide)

/-- Claim C10: in the application launcher, the component name taken from the
first command-line argument is lowercased and defaults to `bee2` when absent;
unless the launcher exits early from the app-inside-game-folder check,
dispatch raises `ValueError` if and only if the lowercased name is none of
`bee2`, `backup`, `compilepane` and does not start with `test_`; the log file
name used is `bee2` for every component except `backup` and `compilepane`. -/
theorem c10_launcher_dispatch (argv : List Launcher.PyStr) :
    (∀ p arg rest, argv = p :: arg :: rest →
      Launcher.appName argv = Launcher.pyLower arg)
    ∧ (argv.length ≤ 1 → Launcher.appName argv = "bee2".data)
    ∧ (Launcher.dispatch false argv = Launcher.Dispatch.invalid ↔
        (Launcher.appName argv ≠ "bee2".data
          ∧ Launcher.appName argv ≠ "backup".data
          ∧ Launcher.appName argv ≠ "compilepane".data
          ∧ Launcher.pyStartswith (Launcher.appName argv) "test_".data = false))
    ∧ ((Launcher.appName argv ≠ "backup".data
          ∧ Launcher.appName argv ≠ "compilepane".data) →
        Launcher.logName argv = "bee2".data)
    ∧ ((Launcher.appName argv = "backup".data
          ∨ Launcher.appName argv = "compilepane".data) →
        Launcher.logName argv = Launcher.appName argv) := by
  refine ⟨?_, ?_, ?_, ?_, ?_⟩
  · rintro p arg rest rfl
    rfl
  · intro h
    match argv, h with
    | [], _ => rfl
    | [p], _ => rfl
  · unfold Launcher.dispatch
    set a := Launcher.appName argv with ha
    by_cases h1 : a = "bee2".data
    · simp [h1]
    · by_cases h2 : a = "backup".data
      · simp [h1, h2]
      · by_cases h3 : a = "compilepane".data
        · simp [h1, h2, h3]
        · by_cases h4 : Launcher.pyStartswith a "test_".data
          · simp [h1, h2, h3, h4]
          · simp [h1, h2, h3, h4]
  · intro ⟨h1, h2⟩
    unfold Launcher.logName
    simp [h1, h2]
  · intro h
    unfold Launcher.logName
    rcases h with h | h <;> simp [h]

/-- Witness for C10: concrete launcher invocations.  `["BEE2.exe", "Backup"]`
lowercases to `backup` and logs to `backup`; a bare invocation defaults to
`bee2`; an unknown component name raises `ValueError`. -/
theorem c10_launcher_dispatch_witness :
    Launcher.appName ["BEE2.exe".data, "Backup".data] = Launcher.pyLower "Backup".data
    ∧ Launcher.appName ["BEE2.exe".data] = "bee2".data
    ∧ Launcher.dispatch false ["BEE2.exe".data, "frobnicate".data]
        = Launcher.Dispatch.invalid
    ∧ Launcher.logName ["BEE2.exe".data, "Backup".data] = Launcher.appName ["BEE2.exe".data, "Backup".data] := by
  refine ⟨(c10_launcher_dispatch _).1 "BEE2.exe".data "Backup".data [] rfl,
    (c10_launcher_dispatch _).2.1 (by decide),
    ((c10_launcher_dispatch _).2.2.1).mpr (by refine ⟨?_, ?_, ?_, ?_⟩ <;> decide),
    (c10_launcher_dispatch _).2.2.2.2 (by left; decide)⟩

namespace Conditions

theorem mem_stripResults {r : Nat} {fired : List Nat} {c : Condition}
    (h : r ∈ (stripResults fired c).results) : r ∈ c.results ∧ r ∉ fired := by
  unfold stripResults at h
  simp only [List.mem_filter, decide_eq_true_eq] at h
  exact h

theorem mem_globalRemove {c' : Condition} {fired : List Nat}
    {pool : List Condition} (h : c' ∈ globalRemove fired pool) :
    ∃ c ∈ pool, c' = stripResults fired c ∧ c'.results ≠ [] := by
  unfold globalRemove pruneExhausted at h
  simp only [List.mem_filter, List.mem_map, decide_eq_true_eq] at h
  obtain ⟨⟨c, hc, rfl⟩, hne⟩ := h
  exact ⟨c, hc, rfl, hne⟩

theorem notHeld_globalRemove_of_fired {r : Nat} {fired : List Nat}
    (hr : r ∈ fired) (pool : List Condition) :
    NotHeld r (globalRemove fired pool) := by
  intro c' hc' hmem
  obtain ⟨c, _, rfl, _⟩ := mem_globalRemove hc'
  exact (mem_stripResults hmem).2 hr

theorem notHeld_globalRemove {r : Nat} {fired : List Nat}
    {pool : List Condition} (h : NotHeld r pool) :
    NotHeld r (globalRemove fired pool) := by
  intro c' hc' hmem
  obtain ⟨c, hc, rfl, _⟩ := mem_globalRemove hc'
  exact h c hc (mem_stripResults hmem).1

theorem nodup_globalRemove {fired : List Nat} {pool : List Condition}
    (h : ∀ c ∈ pool, c.results.Nodup) :
    ∀ c' ∈ globalRemove fired pool, c'.results.Nodup := by
  intro c' hc'
  obtain ⟨c, hc, rfl, _⟩ := mem_globalRemove hc'
  exact (h c hc).filter _

theorem runInstAux_fire (oneShot : Nat → Bool) (i : Instance) (fuel : Nat)
    (done : List Condition) (c : Condition) (todo : List Condition)
    (hc : testCond c i = true) :
    runInstAux oneShot i (fuel + 1) done (c :: todo)
      = ((runInstAux oneShot i fuel
            (globalRemove (c.results.filter oneShot) (done ++ [c]))
            (globalRemove (c.results.filter oneShot) todo)).1,
          c.results ++ (runInstAux oneShot i fuel
            (globalRemove (c.results.filter oneShot) (done ++ [c]))
            (globalRemove (c.results.filter oneShot) todo)).2) := by
  simp only [runInstAux, hc, if_true]

theorem runInstAux_skip (oneShot : Nat → Bool) (i : Instance) (fuel : Nat)
    (done : List Condition) (c : Condition) (todo : List Condition)
    (hc : testCond c i = false) :
    runInstAux oneShot i (fuel + 1) done (c :: todo)
      = runInstAux oneShot i fuel (done ++ [c]) todo := by
  simp only [runInstAux, hc, Bool.false_eq_true, if_false]

/-- A result held by no Condition of the pool never fires during the scan of
one Instance, and stays un-held. -/
theorem runInstAux_notHeld (oneShot : Nat → Bool) (i : Instance) (r : Nat) :
    ∀ fuel done todo, NotHeld r todo →
      (runInstAux oneShot i fuel done todo).2.count r = 0
      ∧ (NotHeld r done → NotHeld r (runInstAux oneShot i fuel done todo).1) := by
  intro fuel
  induction fuel with
  | zero => exact fun done todo _ => ⟨rfl, fun h => h⟩
  | succ fuel ih =>
    intro done todo htodo
    cases todo with
    | nil => exact ⟨rfl, fun h => h⟩
    | cons c todo =>
      have hrc : r ∉ c.results := htodo c (List.mem_cons_self c todo)
      have htail : NotHeld r todo := fun x hx => htodo x (List.mem_cons_of_mem c hx)
      by_cases hc : testCond c i = true
      · rw [runInstAux_fire oneShot i fuel done c todo hc]
        have hrec := ih (globalRemove (c.results.filter oneShot) (done ++ [c]))
          (globalRemove (c.results.filter oneShot) todo)
          (notHeld_globalRemove htail)
        constructor
        · simp only [List.count_append, hrec.1, Nat.add_zero]
          exact List.count_eq_zero.mpr hrc
        · intro hdone
          apply hrec.2
          apply notHeld_globalRemove
          intro x hx
          rcases List.mem_append.mp hx with h | h
          · exact hdone x h
          · simp only [List.mem_singleton] at h
            subst h; exact hrc
      · rw [runInstAux_skip oneShot i fuel done c todo (Bool.eq_false_iff.mpr hc)]
        have hrec := ih (done ++ [c]) todo htail
        refine ⟨hrec.1, fun hdone => hrec.2 ?_⟩
        intro x hx
        rcases List.mem_append.mp hx with h | h
        · exact hdone x h
        · simp only [List.mem_singleton] at h
          subst h; exact hrc

/-- During the scan of one Instance, a one-shot result fires at most once, and
once it has fired it is held by no Condition of the resulting pool. -/
theorem runInstAux_oneShot (oneShot : Nat → Bool) (i : Instance) (r : Nat)
    (hr : oneShot r = true) :
    ∀ fuel done todo, (∀ c ∈ todo, c.results.Nodup) →
      (runInstAux oneShot i fuel done todo).2.count r ≤ 1
      ∧ (1 ≤ (runInstAux oneShot i fuel done todo).2.count r →
          NotHeld r (runInstAux oneShot i fuel done todo).1) := by
  intro fuel
  induction fuel with
  | zero =>
    exact fun done todo _ =>
      ⟨Nat.zero_le 1, fun h => absurd h (by simp [runInstAux])⟩
  | succ fuel ih =>
    intro done todo hnd
    cases todo with
    | nil => exact ⟨Nat.zero_le 1, fun h => absurd h (by simp [runInstAux])⟩
    | cons c todo =>
      have hndtail : ∀ x ∈ todo, x.results.Nodup :=
        fun x hx => hnd x (List.mem_cons_of_mem c hx)
      by_cases hc : testCond c i = true
      · rw [runInstAux_fire oneShot i fuel done c todo hc]
        by_cases hmem : r ∈ c.results
        · have hfOS : r ∈ c.results.filter oneShot :=
            List.mem_filter.mpr ⟨hmem, hr⟩
          have hdone' := notHeld_globalRemove_of_fired hfOS (done ++ [c])
          have htodo' := notHeld_globalRemove_of_fired hfOS todo
          have hrec := runInstAux_notHeld oneShot i r fuel
            (globalRemove (c.results.filter oneShot) (done ++ [c]))
            (globalRemove (c.results.filter oneShot) todo) htodo'
          constructor
          · simp only [List.count_append, hrec.1, Nat.add_zero]
            exact (List.nodup_iff_count_le_one.mp (hnd c (List.mem_cons_self c todo))) r
          · intro _
            exact hrec.2 hdone'
        · have hnd' := @nodup_globalRemove (c.results.filter oneShot) todo hndtail
          have hrec := ih (globalRemove (c.results.filter oneShot) (done ++ [c]))
            (globalRemove (c.results.filter oneShot) todo) hnd'
          have hcz : c.results.count r = 0 := List.count_eq_zero.mpr hmem
          constructor
          · simp only [List.count_append, hcz, Nat.zero_add]
            exact hrec.1
          · intro h1
            simp only [List.count_append, hcz, Nat.zero_add] at h1
            exact hrec.2 h1
      · rw [runInstAux_skip oneShot i fuel done c todo (Bool.eq_false_iff.mpr hc)]
        exact ih (done ++ [c]) todo hndtail

/-- The scan of one Instance keeps every live Condition's Result list
duplicate-free. -/
theorem runInstAux_nodup (oneShot : Nat → Bool) (i : Instance) :
    ∀ fuel done todo, (∀ c ∈ done ++ todo, c.results.Nodup) →
      ∀ c' ∈ (runInstAux oneShot i fuel done todo).1, c'.results.Nodup := by
  intro fuel
  induction fuel with
  | zero =>
    intro done todo h c' hc'
    exact h c' (List.mem_append.mpr (Or.inl hc'))
  | succ fuel ih =>
    intro done todo h
    cases todo with
    | nil =>
      intro c' hc'
      exact h c' (List.mem_append.mpr (Or.inl hc'))
    | cons c todo =>
      have hrearr : ∀ x ∈ (done ++ [c]) ++ todo, x.results.Nodup := by
        intro x hx
        apply h
        simp only [List.append_assoc, List.singleton_append] at hx
        exact hx
      by_cases hc : testCond c i = true
      · rw [runInstAux_fire oneShot i fuel done c todo hc]
        apply ih
        intro x hx
        rcases List.mem_append.mp hx with hdx | htx
        · exact nodup_globalRemove (fun y hy => hrearr y (List.mem_append.mpr (Or.inl hy))) x hdx
        · exact nodup_globalRemove (fun y hy => hrearr y (List.mem_append.mpr (Or.inr hy))) x htx
      · rw [runInstAux_skip oneShot i fuel done c todo (Bool.eq_false_iff.mpr hc)]
        exact ih (done ++ [c]) todo hrearr

/-- Every Condition surviving the scan of one Instance descends from a
Condition of the input pool with the same identity, its Result list a sublist
of the original: results are only ever removed, never added or replaced. -/
theorem runInstAux_shrink (oneShot : Nat → Bool) (i : Instance) :
    ∀ fuel done todo, ∀ c' ∈ (runInstAux oneShot i fuel done todo).1,
      ∃ c ∈ done ++ todo, c'.cid = c.cid ∧ c'.results.Sublist c.results := by
  intro fuel
  induction fuel with
  | zero =>
    intro done todo c' hc'
    exact ⟨c', List.mem_append.mpr (Or.inl hc'), rfl, List.Sublist.refl _⟩
  | succ fuel ih =>
    intro done todo
    cases todo with
    | nil =>
      intro c' hc'
      exact ⟨c', List.mem_append.mpr (Or.inl hc'), rfl, List.Sublist.refl _⟩
    | cons c todo =>
      have hback : ∀ x ∈ (done ++ [c]) ++ todo, x ∈ done ++ c :: todo := by
        intro x hx
        simpa only [List.append_assoc, List.singleton_append] using hx
      by_cases hc : testCond c i = true
      · rw [runInstAux_fire oneShot i fuel done c todo hc]
        intro c' hc'
        obtain ⟨m, hm, hcid, hsub⟩ := ih _ _ c' hc'
        -- `m` lives in the globally-stripped pools; find its source Condition.
        have : ∃ y ∈ done ++ c :: todo, m.cid = y.cid ∧ m.results.Sublist y.results := by
          rcases List.mem_append.mp hm with hdx | htx
          · obtain ⟨y, hy, rfl, _⟩ := mem_globalRemove hdx
            exact ⟨y, hback y (List.mem_append.mpr (Or.inl hy)), rfl,
              List.filter_sublist _⟩
          · obtain ⟨y, hy, rfl, _⟩ := mem_globalRemove htx
            exact ⟨y, hback y (List.mem_append.mpr (Or.inr hy)), rfl,
              List.filter_sublist _⟩
        obtain ⟨y, hy, hcid2, hsub2⟩ := this
        exact ⟨y, hy, hcid.trans hcid2, hsub.trans hsub2⟩
      · rw [runInstAux_skip oneShot i fuel done c todo (Bool.eq_false_iff.mpr hc)]
        intro c' hc'
        obtain ⟨m, hm, hcid, hsub⟩ := ih (done ++ [c]) todo c' hc'
        exact ⟨m, hback m hm, hcid, hsub⟩

/-- Conditions in the pool kept after the scan of one Instance always have a
non-empty Result list: exhausted Conditions are pruned. -/
theorem runInstAux_nonempty (oneShot : Nat → Bool) (i : Instance) :
    ∀ fuel done todo, (∀ c ∈ done ++ todo, c.results ≠ []) →
      ∀ c' ∈ (runInstAux oneShot i fuel done todo).1, c'.results ≠ [] := by
  intro fuel
  induction fuel with
  | zero =>
    intro done todo h c' hc'
    exact h c' (List.mem_append.mpr (Or.inl hc'))
  | succ fuel ih =>
    intro done todo h
    cases todo with
    | nil =>
      intro c' hc'
      exact h c' (List.mem_append.mpr (Or.inl hc'))
    | cons c todo =>
      have hrearr : ∀ x ∈ (done ++ [c]) ++ todo, x.results ≠ [] := by
        intro x hx
        apply h
        simpa only [List.append_assoc, List.singleton_append] using hx
      by_cases hc : testCond c i = true
      · rw [runInstAux_fire oneShot i fuel done c todo hc]
        apply ih
        intro x hx
        rcases List.mem_append.mp hx with hdx | htx
        · exact (mem_globalRemove hdx).choose_spec.2.2
        · exact (mem_globalRemove htx).choose_spec.2.2
      · rw [runInstAux_skip oneShot i fuel done c todo (Bool.eq_false_iff.mpr hc)]
        exact ih (done ++ [c]) todo hrearr

/-- A result held by no Condition of the pool never fires for the rest of the
run. -/
theorem runConditions_notHeld (oneShot : Nat → Bool) (r : Nat) :
    ∀ insts pool, NotHeld r pool →
      (runConditions oneShot insts pool).2.count r = 0
      ∧ NotHeld r (runConditions oneShot insts pool).1 := by
  intro insts
  induction insts with
  | nil => exact fun pool h => ⟨rfl, h⟩
  | cons i is ih =>
    intro pool h
    have hstep := runInstAux_notHeld oneShot i r pool.length [] pool h
    have hdone : NotHeld r ([] : List Condition) := fun c hc => absurd hc (List.not_mem_nil c)
    have hrest := ih (runInstance oneShot pool i).1 (hstep.2 hdone)
    constructor
    · simp only [runConditions, List.count_append, runInstance] at *
      omega
    · simpa only [runConditions] using hrest.2

/-- Claim C1: for every run of the Conditions Engine, every Result marked
one-shot executes at most once across the entire run, no matter how many
Conditions reference it nor how many Instances satisfy its Condition; and
after it fires it is removed from every Condition that held it — once the
fired trace contains the one-shot result, no Condition of the run's final
pool holds it any longer.  The duplicate-free hypothesis states that a
Condition's ordered Result list holds any given Result object at most
once. -/
theorem c1_one_shot_fires_at_most_once (oneShot : Nat → Bool) (r : Nat)
    (hr : oneShot r = true) :
    ∀ (insts : List Instance) (pool : List Condition),
      (∀ c ∈ pool, c.results.Nodup) →
      (runConditions oneShot insts pool).2.count r ≤ 1
      ∧ (1 ≤ (runConditions oneShot insts pool).2.count r →
          NotHeld r (runConditions oneShot insts pool).1) := by
  intro insts
  induction insts with
  | nil =>
    intro pool _
    constructor
    · simp [runConditions]
    · intro h
      simp [runConditions] at h
  | cons i is ih =>
    intro pool hnd
    have hstep := runInstAux_oneShot oneShot i r hr pool.length [] pool hnd
    have hnd' : ∀ c' ∈ (runInstAux oneShot i pool.length [] pool).1,
        c'.results.Nodup :=
      runInstAux_nodup oneShot i pool.length [] pool (by simpa using hnd)
    simp only [runConditions, runInstance, List.count_append]
    by_cases h1 : 1 ≤ (runInstAux oneShot i pool.length [] pool).2.count r
    · have hrest := runConditions_notHeld oneShot r is
        (runInstAux oneShot i pool.length [] pool).1 (hstep.2 h1)
      have h2 := hstep.1
      have h3 := hrest.1
      exact ⟨by omega, fun _ => hrest.2⟩
    · have hrest := ih (runInstAux oneShot i pool.length [] pool).1 hnd'
      have h2 := hrest.1
      exact ⟨by omega, fun h => hrest.2 (by omega)⟩

/-- Witness for C1: result 7 is one-shot and referenced by two Conditions
whose (empty) Flag lists pass on both Instances, yet it fires exactly once in
the whole run, and after the run no surviving Condition holds it. -/
theorem c1_one_shot_fires_at_most_once_witness :
    (fun x => decide (x = 7)) 7 = true
    ∧ (∀ c ∈ [(⟨0, [], .and, [7, 1]⟩ : Condition), ⟨1, [], .or, [7]⟩],
        c.results.Nodup)
    ∧ (runConditions (fun x => decide (x = 7))
        [⟨"a", "foo.vmf", []⟩, ⟨"b", "foo.vmf", []⟩]
        [⟨0, [], .and, [7, 1]⟩, ⟨1, [], .or, [7]⟩]).2.count 7 ≤ 1
    ∧ NotHeld 7 (runConditions (fun x => decide (x = 7))
        [⟨"a", "foo.vmf", []⟩, ⟨"b", "foo.vmf", []⟩]
        [⟨0, [], .and, [7, 1]⟩, ⟨1, [], .or, [7]⟩]).1 :=
  ⟨by decide, by decide,
    (c1_one_shot_fires_at_most_once (fun x => decide (x = 7)) 7 (by decide)
      [⟨"a", "foo.vmf", []⟩, ⟨"b", "foo.vmf", []⟩]
      [⟨0, [], .and, [7, 1]⟩, ⟨1, [], .or, [7]⟩] (by decide)).1,
    (c1_one_shot_fires_at_most_once (fun x => decide (x = 7)) 7 (by decide)
      [⟨"a", "foo.vmf", []⟩, ⟨"b", "foo.vmf", []⟩]
      [⟨0, [], .and, [7, 1]⟩, ⟨1, [], .or, [7]⟩] (by decide)).2 (by decide)⟩

/-- Claim C2: for every Condition whose Flag list is empty and every Instance
visited, the Condition's Flag evaluation passes (vacuous truth) and its
Results are executed for that Instance, regardless of the AND/OR combinator:
when such a Condition is reached during the scan, its full current Result
list is appended to the fired trace. -/
theorem c2_empty_flags_vacuously_true (c : Condition) (h : c.flags = []) :
    (∀ i : Instance, testCond c i = true)
    ∧ ∀ (oneShot : Nat → Bool) (i : Instance) (fuel : Nat)
        (done todo : List Condition),
        ∃ t, (runInstAux oneShot i (fuel + 1) done (c :: todo)).2
              = c.results ++ t := by
  have hpass : ∀ i : Instance, testCond c i = true := by
    intro i
    unfold testCond
    rw [h]
  refine ⟨hpass, fun oneShot i fuel done todo => ?_⟩
  rw [runInstAux_fire oneShot i fuel done c todo (hpass i)]
  exact ⟨_, rfl⟩

/-- Witness for C2: a Condition with no Flags and combinator `OR` passes on a
concrete Instance and fires its Results. -/
theorem c2_empty_flags_vacuously_true_witness :
    testCond ⟨0, [], .or, [1, 2]⟩ ⟨"i", "p.vmf", []⟩ = true
    ∧ ∃ t, (runInstAux (fun _ => false) ⟨"i", "p.vmf", []⟩ 1 []
              [⟨0, [], .or, [1, 2]⟩]).2 = [1, 2] ++ t :=
  ⟨(c2_empty_flags_vacuously_true ⟨0, [], .or, [1, 2]⟩ rfl).1 ⟨"i", "p.vmf", []⟩,
    (c2_empty_flags_vacuously_true ⟨0, [], .or, [1, 2]⟩ rfl).2
      (fun _ => false) ⟨"i", "p.vmf", []⟩ 0 [] []⟩

/-- Claim C6: throughout a run, every Condition's Result list only ever
shrinks (elements are removed, never added or replaced — its final Result
list is a sublist of its original one), and a Condition whose Result list has
become empty is exhausted: it is pruned from the pool (every Condition still
in the pool has a non-empty Result list) and, the scan only ever evaluating
pool members, is never evaluated against any later Instance. -/
theorem c6_result_lists_shrink_and_exhausted_pruned (oneShot : Nat → Bool) :
    ∀ (insts : List Instance) (pool : List Condition),
      (∀ c ∈ pool, c.results ≠ []) →
      ∀ c' ∈ (runConditions oneShot insts pool).1,
        c'.results ≠ []
        ∧ ∃ c ∈ pool, c'.cid = c.cid ∧ c'.results.Sublist c.results := by
  intro insts
  induction insts with
  | nil =>
    intro pool h c' hc'
    simp only [runConditions] at hc'
    exact ⟨h c' hc', c', hc', rfl, List.Sublist.refl _⟩
  | cons i is ih =>
    intro pool h c' hc'
    simp only [runConditions, runInstance] at hc'
    have hne' : ∀ x ∈ (runInstAux oneShot i pool.length [] pool).1,
        x.results ≠ [] :=
      runInstAux_nonempty oneShot i pool.length [] pool (by simpa using h)
    obtain ⟨hcne, m, hm, hcid, hsub⟩ :=
      ih (runInstAux oneShot i pool.length [] pool).1 hne' c' hc'
    obtain ⟨y, hy, hcid2, hsub2⟩ :=
      runInstAux_shrink oneShot i pool.length [] pool m hm
    simp only [List.nil_append] at hy
    exact ⟨hcne, y, hy, hcid.trans hcid2, hsub.trans hsub2⟩

/-- Witness for C6: a one-shot firing shrinks the single Condition's Result
list from `[7, 1]` to `[1]`; the survivor is non-empty, keeps its identity and
its Result list is a sublist of the original. -/
theorem c6_result_lists_shrink_and_exhausted_pruned_witness :
    (⟨0, [], .and, [1]⟩ : Condition).results ≠ []
    ∧ ∃ c ∈ [(⟨0, [], .and, [7, 1]⟩ : Condition)],
        (⟨0, [], .and, [1]⟩ : Condition).cid = c.cid
        ∧ [1].Sublist c.results :=
  c6_result_lists_shrink_and_exhausted_pruned (fun x => decide (x = 7))
    [⟨"a", "foo.vmf", []⟩] [⟨0, [], .and, [7, 1]⟩] (by decide)
    ⟨0, [], .and, [1]⟩ (by decide)

end Conditions

/-- Claim C3: for every key and every pair of runs over the same map content,
`stream_for(key)` yields identical output sequences, independent of platform,
process/thread scheduling, and of reordering unrelated entities in the input
file.  `stream_for` is a pure function of the key and the entity multiset, so
run-to-run and platform variation can only enter as a reordering of the
entity list — and any permutation of the entities leaves every stream
unchanged. -/
theorem c3_stream_for_deterministic (m₁ m₂ : List Rand.SeedEntity)
    (key : List Nat) (n : Nat) (hperm : m₁.Perm m₂) :
    Rand.mapSeed m₁ = Rand.mapSeed m₂
    ∧ Rand.stream_for m₁ key n = Rand.stream_for m₂ key n := by
  have hseed : Rand.mapSeed m₁ = Rand.mapSeed m₂ := by
    unfold Rand.mapSeed
    rw [(hperm.map Rand.entHash).sum_eq]
  exact ⟨hseed, by unfold Rand.stream_for; rw [hseed]⟩

/-- Witness for C3: two listings of the same two entities in opposite order
produce the same seed and the same stream. -/
theorem c3_stream_for_deterministic_witness :
    Rand.stream_for [⟨[99], (1, 2, 3)⟩, ⟨[100], (-4, 5, 6)⟩] [42] 3
      = Rand.stream_for [⟨[100], (-4, 5, 6)⟩, ⟨[99], (1, 2, 3)⟩] [42] 3 :=
  (c3_stream_for_deterministic
    [⟨[99], (1, 2, 3)⟩, ⟨[100], (-4, 5, 6)⟩]
    [⟨[100], (-4, 5, 6)⟩, ⟨[99], (1, 2, 3)⟩] [42] 3 (by decide)).2

/-- Claim C5: for every valid Tiling Grid address (cell, orientation, subtile)
and every tile state `s`, performing `set(addr, s)` and then `get(addr)`
returns exactly `s`, with later writes to the same address overwriting
earlier ones (last-write-wins); writes leave the topology and all other
addresses untouched. -/
theorem c5_tiling_grid_round_trip (g : Tiling.TileGrid) (a : Tiling.TileAddr)
    (s s₁ s₂ : Tiling.TileState) (hv : g.validAddr a) :
    (g.set a s).get a = s
    ∧ ((g.set a s₁).set a s₂).get a = s₂
    ∧ (g.set a s).cells = g.cells
    ∧ ∀ a' : Tiling.TileAddr, a' ≠ a → (g.set a s).get a' = g.get a' := by
  have hmem : a.cell ∈ g.cells := hv
  have hset : ∀ t : Tiling.TileState,
      g.set a t = ⟨g.cells, fun a' => if a' = a then t else g.data a'⟩ := by
    intro t
    unfold Tiling.TileGrid.set
    rw [if_pos hmem]
  refine ⟨?_, ?_, ?_, ?_⟩
  · rw [hset]
    simp [Tiling.TileGrid.get]
  · rw [hset s₁]
    show (Tiling.TileGrid.set ⟨g.cells, _⟩ a s₂).get a = s₂
    unfold Tiling.TileGrid.set
    rw [if_pos hmem]
    simp [Tiling.TileGrid.get]
  · rw [hset]
  · intro a' hne
    rw [hset]
    simp [Tiling.TileGrid.get, hne]

/-- Witness for C5: a one-cell grid at the origin; writing a white tile with
material 3 and reading it back returns it, and a second write wins. -/
theorem c5_tiling_grid_round_trip_witness :
    ((⟨[(0, 0, 0)], fun _ => ⟨Tiling.TileType.void, 0⟩⟩ : Tiling.TileGrid).set
        ⟨(0, 0, 0), 2, 1, 3⟩ ⟨Tiling.TileType.white, 3⟩).get
      ⟨(0, 0, 0), 2, 1, 3⟩ = ⟨Tiling.TileType.white, 3⟩
    ∧ (((⟨[(0, 0, 0)], fun _ => ⟨Tiling.TileType.void, 0⟩⟩ : Tiling.TileGrid).set
          ⟨(0, 0, 0), 2, 1, 3⟩ ⟨Tiling.TileType.black, 1⟩).set
        ⟨(0, 0, 0), 2, 1, 3⟩ ⟨Tiling.TileType.white, 3⟩).get
      ⟨(0, 0, 0), 2, 1, 3⟩ = ⟨Tiling.TileType.white, 3⟩ :=
  ⟨(c5_tiling_grid_round_trip ⟨[(0, 0, 0)], fun _ => ⟨Tiling.TileType.void, 0⟩⟩
      ⟨(0, 0, 0), 2, 1, 3⟩ ⟨Tiling.TileType.white, 3⟩ ⟨Tiling.TileType.black, 1⟩
      ⟨Tiling.TileType.white, 3⟩ (by decide)).1,
    (c5_tiling_grid_round_trip ⟨[(0, 0, 0)], fun _ => ⟨Tiling.TileType.void, 0⟩⟩
      ⟨(0, 0, 0), 2, 1, 3⟩ ⟨Tiling.TileType.white, 3⟩ ⟨Tiling.TileType.black, 1⟩
      ⟨Tiling.TileType.white, 3⟩ (by decide)).2.1⟩

namespace Template

theorem undigits_digitsAux : ∀ fuel n, n ≤ fuel →
    undigits (digitsAux fuel n) = n := by
  intro fuel
  induction fuel with
  | zero =>
    intro n hn
    interval_cases n
    rfl
  | succ fuel ih =>
    intro n hn
    by_cases h0 : n = 0
    · subst h0
      simp [digitsAux, undigits]
    · rw [digitsAux, if_neg h0]
      rw [undigits, ih (n / 10) (by omega)]
      omega

theorem digitsOf_injective {a b : Nat} (h : digitsOf a = digitsOf b) :
    a = b := by
  have ha := undigits_digitsAux a a (Nat.le_refl a)
  have hb := undigits_digitsAux b b (Nat.le_refl b)
  unfold digitsOf at h
  rw [← ha, ← hb, h]

theorem digitsAux_lt_ten : ∀ fuel n, ∀ d ∈ digitsAux fuel n, d < 10 := by
  intro fuel
  induction fuel with
  | zero => intro n d hd; simp [digitsAux] at hd
  | succ fuel ih =>
    intro n d hd
    by_cases h0 : n = 0
    · subst h0; simp [digitsAux] at hd
    · rw [digitsAux, if_neg h0] at hd
      rcases List.mem_cons.mp hd with h | h
      · subst h; exact Nat.mod_lt n (by omega)
      · exact ih (n / 10) d h

theorem sep_not_mem_digitsOf (n : Nat) : SEP ∉ digitsOf n := by
  intro h
  have := digitsAux_lt_ten n n SEP h
  unfold SEP at this
  omega

/-- If two separator-suffixed names coincide and neither suffix contains the
separator, the suffixes coincide. -/
theorem suffix_eq_of_append_sep_eq :
    ∀ (s₁ s₂ t₁ t₂ : List Nat), SEP ∉ t₁ → SEP ∉ t₂ →
      s₁ ++ SEP :: t₁ = s₂ ++ SEP :: t₂ → t₁ = t₂ := by
  intro s₁
  induction s₁ with
  | nil =>
    intro s₂ t₁ t₂ h₁ h₂ heq
    cases s₂ with
    | nil => simpa using heq
    | cons y s₂ =>
      simp only [List.nil_append, List.cons_append, List.cons.injEq] at heq
      exfalso
      apply h₁
      rw [heq.2]
      exact List.mem_append.mpr (Or.inr (List.mem_cons_self _ _))
  | cons x s₁ ih =>
    intro s₂ t₁ t₂ h₁ h₂ heq
    cases s₂ with
    | nil =>
      simp only [List.cons_append, List.nil_append, List.cons.injEq] at heq
      exfalso
      apply h₂
      rw [← heq.2]
      exact List.mem_append.mpr (Or.inr (List.mem_cons_self _ _))
    | cons y s₂ =>
      simp only [List.cons_append, List.cons.injEq] at heq
      exact ih s₂ t₁ t₂ h₁ h₂ heq.2

end Template

/-- Claim C7: for every template and every two instantiations of it under
distinct owner Instances, the resulting entity sets share no targetname:
every entity's targetname is rewritten by appending a per-call-unique suffix
derived from the owner Instance's identity, and distinct suffixes make every
pair of resulting names distinct. -/
theorem c7_template_names_never_collide (tpl₁ tpl₂ : List Template.TemplEntity)
    (o₁ o₂ : Nat) (h : o₁ ≠ o₂) :
    ∀ n₁ ∈ Template.instanceTemplate tpl₁ o₁,
      ∀ n₂ ∈ Template.instanceTemplate tpl₂ o₂, n₁ ≠ n₂ := by
  intro n₁ h₁ n₂ h₂ heq
  obtain ⟨e₁, _, rfl⟩ := List.mem_map.mp h₁
  obtain ⟨e₂, _, rfl⟩ := List.mem_map.mp h₂
  unfold Template.renameTarget at heq
  have := Template.suffix_eq_of_append_sep_eq _ _ _ _
    (Template.sep_not_mem_digitsOf o₁) (Template.sep_not_mem_digitsOf o₂) heq
  exact h (Template.digitsOf_injective this)

/-- Witness for C7: the template with one entity named `a` instantiated under
owners 1 and 2 yields names `a_1` and `a_2` (character codes), which differ. -/
theorem c7_template_names_never_collide_witness :
    ([97, 95, 1] : Template.TName) ≠ [97, 95, 2] :=
  c7_template_names_never_collide [⟨[97]⟩] [⟨[97]⟩] 1 2 (by decide)
    [97, 95, 1] (by decide) [97, 95, 2] (by decide)

namespace Connections

theorem chunksAux_length_le (c : Nat) :
    ∀ fuel xs, xs.length ≤ fuel → (chunksAux c fuel xs).length ≤ xs.length := by
  intro fuel
  induction fuel with
  | zero => intro xs _; simp [chunksAux]
  | succ fuel ih =>
    intro xs hxs
    cases xs with
    | nil => simp [chunksAux]
    | cons x xs =>
      rw [chunksAux]
      simp only [List.length_cons] at hxs ⊢
      have hd : (xs.drop (c - 1)).length ≤ fuel := by
        rw [List.length_drop]; omega
      have := ih (xs.drop (c - 1)) hd
      rw [List.length_drop] at this
      omega

theorem chunksOf_length_lt (c : Nat) (xs : List Output)
    (h2 : 2 ≤ c) (hlt : c < xs.length) :
    (chunksOf c xs).length < xs.length := by
  cases xs with
  | nil => simp at hlt
  | cons x xs =>
    unfold chunksOf
    simp only [List.length_cons]
    rw [chunksAux]
    simp only [List.length_cons]
    have hd : (xs.drop (c - 1)).length ≤ xs.length := by
      rw [List.length_drop]; omega
    have := chunksAux_length_le c xs.length (xs.drop (c - 1)) hd
    rw [List.length_drop] at this
    simp only [List.length_cons] at hlt
    omega

theorem chunksAux_mem_length (c : Nat) (hc : 1 ≤ c) :
    ∀ fuel xs, ∀ l ∈ chunksAux c fuel xs, l.length ≤ c := by
  intro fuel
  induction fuel with
  | zero => intro xs l hl; simp [chunksAux] at hl
  | succ fuel ih =>
    intro xs l hl
    cases xs with
    | nil => simp [chunksAux] at hl
    | cons x xs =>
      rw [chunksAux] at hl
      rcases List.mem_cons.mp hl with h | h
      · subst h
        simp only [List.length_cons, List.length_take]
        omega
      · exact ih (xs.drop (c - 1)) l h

theorem mkRelays_length (src : Nat) (chunks : List (List Output)) :
    (mkRelays src chunks).length = chunks.length := by
  simp [mkRelays]

theorem mkRelays_outputs_mem {src : Nat} {chunks : List (List Output)}
    {x : CEntity} (hx : x ∈ mkRelays src chunks) : x.outputs ∈ chunks := by
  unfold mkRelays at hx
  obtain ⟨p, hp, rfl⟩ := List.mem_map.mp hx
  exact (List.of_mem_zip hp).2

theorem compactAux_outputs_le (limit : Nat) :
    ∀ fuel (e : CEntity), e.outputs.length ≤ fuel →
      ∀ x ∈ compactAux limit fuel e, x.outputs.length ≤ max 2 limit := by
  intro fuel
  induction fuel with
  | zero =>
    intro e he x hx
    simp only [compactAux, List.mem_singleton] at hx
    subst hx
    omega
  | succ fuel ih =>
    intro e he x hx
    rw [compactAux] at hx
    by_cases hle : e.outputs.length ≤ max 2 limit
    · rw [if_pos hle] at hx
      simp only [List.mem_singleton] at hx
      subst hx
      exact hle
    · rw [if_neg hle] at hx
      push_neg at hle
      rcases List.mem_append.mp hx with h | h
      · apply ih _ _ _ h
        show (List.map (fun r => relayTrigger r.name)
            (mkRelays e.name (chunksOf (max 2 limit) e.outputs))).length ≤ fuel
        rw [List.length_map, mkRelays_length]
        have := chunksOf_length_lt (max 2 limit) e.outputs (Nat.le_max_left 2 limit) hle
        omega
      · exact chunksAux_mem_length (max 2 limit) (by omega) e.outputs.length
          e.outputs x.outputs (mkRelays_outputs_mem h)

end Connections

/-- Claim C4: for every input Connections graph on which `compact()` succeeds
(in this model it always does), no entity in the emitted output has more
simultaneous outputs than the declared hard per-entity limit of the target
runtime.  The limit must be at least 2 for a relay topology to exist at all. -/
theorem c4_compact_respects_output_limit (limit : Nat) (h2 : 2 ≤ limit)
    (g : List Connections.CEntity) :
    ∀ x ∈ Connections.compact limit g, x.outputs.length ≤ limit := by
  intro x hx
  unfold Connections.compact at hx
  obtain ⟨l, hl, hxl⟩ := List.mem_flatten.mp hx
  obtain ⟨e, _, rfl⟩ := List.mem_map.mp hl
  have := Connections.compactAux_outputs_le limit e.outputs.length e
    (Nat.le_refl _) x hxl
  rwa [max_eq_right h2] at this

/-- Witness for C4: with limit 2, an entity with five outputs is split over
relays; the first relay carries exactly two of them. -/
theorem c4_compact_respects_output_limit_witness :
    (⟨1001, [⟨10, []⟩, ⟨11, []⟩]⟩ : Connections.CEntity).outputs.length ≤ 2 :=
  c4_compact_respects_output_limit 2 (by decide)
    [⟨1, [⟨10, []⟩, ⟨11, []⟩, ⟨12, []⟩, ⟨13, []⟩, ⟨14, []⟩]⟩]
    ⟨1001, [⟨10, []⟩, ⟨11, []⟩]⟩ (by decide)
